import Mathlib

/-!
Verification of the GrandPaQuiz quiz engine (`main.py`).

The development shallowly embeds the core of the program:
question-bank loading and validation (`load_questions`), the per-session
callback handlers (`handle_single`, `handle_multi_toggle`,
`handle_multi_clear`, `handle_multi_submit`), the completion total and
result record (`send_next_question`), the result store
(`safe_read_results`, `append_result`), and the leaderboard builder
(`build_leaderboard_text`).

Modelling conventions:
* Python dict/JSON question objects become the `Question` structure; the
  `answer_index` field, which is either an int or a list of ints in the
  JSON, becomes the `AnswerIndex` sum type.  Question and option indices
  are natural numbers (they originate from `enumerate`).
* The aiogram FSM data dict (`name`, `score`, `q_index`,
  `multi_selected`) becomes the `SessionData` structure; the
  `multi_selected` dict keyed by `str(q_index)` becomes an association
  list keyed by `Nat` with Python dict semantics (`dictGet`/`dictSet`).
* A Python exception escaping a handler before any `state.update_data`
  call is modelled as returning the state unchanged with an error
  `Outcome` (`typeError` for `TypeError`, `indexError` for `IndexError`).
* File I/O is abstracted: a `StoreFile` carries the records previously
  written together with a `readable` flag (the `try/except` in
  `safe_read_results` returns `[]` exactly when the file is missing or
  unreadable/corrupt); a failing write is an explicit `writeOk = false`
  argument (the `json.dump` in `append_result` is not guarded, so a write
  failure propagates as an error).
-/

/-- The `answer_index` field of a question: an int for single-choice
questions, a list of ints for multi-choice questions (as validated by
`load_questions`). -/
inductive AnswerIndex where
  | int (i : Nat)
  | list (l : List Nat)
deriving DecidableEq, Repr

/-- One entry of the JSON question bank, after the required-fields check:
`question`, `options`, `type` (kept as the string `"single"`/`"multi"`,
named `qtype` here) and `answer_index`. -/
structure Question where
  question : String
  options : List String
  qtype : String
  answer_index : AnswerIndex
deriving DecidableEq, Repr

/-- The per-question validation performed by `load_questions`
(main.py lines 48-62): `type` must be `"single"` or `"multi"`, `options`
must have at least 2 entries, and `answer_index` must be an in-range int
for single questions, or a non-empty list of in-range ints for multi
questions.  Note that duplicate entries in a multi `answer_index` list
are not rejected. -/
def validateQuestion (q : Question) : Bool :=
  (q.qtype == "single" || q.qtype == "multi") &&
  decide (2 ≤ q.options.length) &&
  (if q.qtype == "single" then
    match q.answer_index with
    | .int a => decide (a < q.options.length)
    | .list _ => false
  else
    match q.answer_index with
    | .int _ => false
    | .list l => !l.isEmpty && l.all (fun x => decide (x < q.options.length)))

/-- `load_questions` (main.py lines 45-63): the whole bank loads iff every
question validates; any violation raises `ValueError`, modelled as
`Except.error`. -/
def load_questions (qs : List Question) : Except String (List Question) :=
  if qs.all validateQuestion then .ok qs else .error "invalid question bank"

/-- The per-question contribution to the completion total
(main.py line 133): `len(q["answer_index"]) if q["type"] == "multi" else 1`.
`len` of an int raises `TypeError`, hence the `Option`. -/
def questionPoints (q : Question) : Option Nat :=
  if q.qtype == "multi" then
    match q.answer_index with
    | .list l => some l.length
    | .int _ => none
  else some 1

/-- `total_correct` computed on session completion (main.py line 133):
the sum over the bank of `questionPoints`. -/
def total_correct (qs : List Question) : Option Nat :=
  qs.foldr (fun q acc =>
    match questionPoints q, acc with
    | some p, some s => some (p + s)
    | _, _ => none) (some 0)

/-- Spec-side total, following the spec text: count of SINGLE questions
plus the sum of `|correct|` (cardinality of the set of correct indices)
over MULTI questions. -/
def totalPossibleSpec (qs : List Question) : Nat :=
  (qs.filter (fun q => q.qtype == "single")).length +
  ((qs.filter (fun q => q.qtype == "multi")).map (fun q =>
    match q.answer_index with
    | .list l => l.toFinset.card
    | .int _ => 0)).sum

/-- The scoring expression of `handle_multi_submit` (main.py line 318):
`gained = len(corr.intersection(sel))`. -/
def scoreMultiGained (corr sel : Finset Nat) : Nat := (corr ∩ sel).card

/-- Python dict lookup with default `[]`:
`multi_selected.get(str(k), [])`. -/
def dictGet : List (Nat × List Nat) → Nat → List Nat
  | [], _ => []
  | p :: ps, k => if p.1 = k then p.2 else dictGet ps k

/-- Python dict assignment `multi_selected[str(k)] = v`: replace the
entry in place if the key exists, else append (insertion order). -/
def dictSet : List (Nat × List Nat) → Nat → List Nat → List (Nat × List Nat)
  | [], k, v => [(k, v)]
  | p :: ps, k, v => if p.1 = k then (k, v) :: ps else p :: dictSet ps k v

/-- `list(sorted(...))`: insert one element into an ascending list. -/
def insertOrderedNat (x : Nat) : List Nat → List Nat
  | [] => [x]
  | y :: ys => if x ≤ y then x :: y :: ys else y :: insertOrderedNat x ys

/-- `list(sorted(...))` on a list of naturals. -/
def sortedNatList (l : List Nat) : List Nat := l.foldr insertOrderedNat []

/-- The aiogram FSM data for a session, as set up by `got_name`
(main.py line 185): display name, accumulated score, current question
index and the `multi_selected` dict. -/
structure SessionData where
  name : String
  score : Nat
  q_index : Nat
  multi_selected : List (Nat × List Nat)
deriving DecidableEq, Repr

/-- The state written by `got_name` on name entry (main.py line 185):
`score=0, q_index=0, multi_selected={}`. -/
def initialData (name : String) : SessionData :=
  { name := name, score := 0, q_index := 0, multi_selected := [] }

/-- The user-visible outcome of one callback handler invocation. -/
inductive Outcome where
  | staleAnswer
  | typeMismatch
  | typeError
  | indexError
  | answered (correct : Bool)
  | toggled
  | cleared
  | submitted (gained : Nat)
deriving DecidableEq, Repr

/-- `handle_single` (main.py lines 189-230): stale-index guard, then
`correct = (opt_index == int(q["answer_index"]))` — on a multi question
`answer_index` is a list, so `int(...)` raises `TypeError` before any
state update.  On success the score gains 1 iff the chosen index equals
the stored correct index, and the question index advances by one. -/
def handle_single (questions : List Question) (qi oi : Nat) (d : SessionData) :
    SessionData × Outcome :=
  if qi ≠ d.q_index then (d, .staleAnswer)
  else match questions[d.q_index]? with
  | none => (d, .indexError)
  | some q =>
    match q.answer_index with
    | .list _ => (d, .typeError)
    | .int a =>
      let correct : Bool := oi == a
      let score := if correct then d.score + 1 else d.score
      ({ d with score := score, q_index := d.q_index + 1 }, .answered correct)

/-- `handle_multi_toggle` (main.py lines 232-269): stale-index guard,
type guard (`q["type"] != "multi"` is rejected), then the selection set
for the current question flips membership of `opt_index` and is stored
back as a sorted list. -/
def handle_multi_toggle (questions : List Question) (qi oi : Nat) (d : SessionData) :
    SessionData × Outcome :=
  if qi ≠ d.q_index then (d, .staleAnswer)
  else match questions[d.q_index]? with
  | none => (d, .indexError)
  | some q =>
    if q.qtype ≠ "multi" then (d, .typeMismatch)
    else
      let sel := (dictGet d.multi_selected qi).dedup
      let sel2 := if oi ∈ sel then sel.erase oi else sel ++ [oi]
      ({ d with multi_selected := dictSet d.multi_selected qi (sortedNatList sel2) },
       .toggled)

/-- `handle_multi_clear` (main.py lines 271-296): stale-index guard, then
the selection for the current question is set to the empty list — with
no type guard, so this also runs for a SINGLE current question.  The
read of `questions_cache[current_idx]` for the keyboard refresh happens
after the state update, so an out-of-range index fails only after the
mutation. -/
def handle_multi_clear (questions : List Question) (qi : Nat) (d : SessionData) :
    SessionData × Outcome :=
  if qi ≠ d.q_index then (d, .staleAnswer)
  else
    let d2 := { d with multi_selected := dictSet d.multi_selected qi [] }
    (d2, if d.q_index < questions.length then .cleared else .indexError)

/-- `handle_multi_submit` (main.py lines 298-337): stale-index guard,
then `corr = set(q["answer_index"])` — on a single question
`answer_index` is an int, so `set(...)` raises `TypeError` before any
state update.  On success the score gains `len(corr & sel)` and the
question index advances; the feedback rendering after the update indexes
`q["options"]`, so out-of-range selections fail only after the
mutation. -/
def handle_multi_submit (questions : List Question) (qi : Nat) (d : SessionData) :
    SessionData × Outcome :=
  if qi ≠ d.q_index then (d, .staleAnswer)
  else match questions[d.q_index]? with
  | none => (d, .indexError)
  | some q =>
    match q.answer_index with
    | .int _ => (d, .typeError)
    | .list l =>
      let stored := dictGet d.multi_selected qi
      let gained := scoreMultiGained l.toFinset stored.toFinset
      let d2 := { d with score := d.score + gained, q_index := d.q_index + 1 }
      let renderOk := stored.all (fun i => decide (i < q.options.length)) &&
        l.all (fun i => decide (i < q.options.length))
      (d2, if renderOk then .submitted gained else .indexError)

/-- One inbound callback action, as dispatched by the router. -/
inductive QuizAction where
  | single (qi oi : Nat)
  | toggle (qi oi : Nat)
  | clear (qi : Nat)
  | submit (qi : Nat)
deriving DecidableEq, Repr

/-- The state component of one handler invocation. -/
def step (questions : List Question) (a : QuizAction) (d : SessionData) : SessionData :=
  match a with
  | .single qi oi => (handle_single questions qi oi d).1
  | .toggle qi oi => (handle_multi_toggle questions qi oi d).1
  | .clear qi => (handle_multi_clear questions qi d).1
  | .submit qi => (handle_multi_submit questions qi d).1

/-- A session run: the actions received after name entry, in order. -/
def runActions (questions : List Question) (as : List QuizAction) (d : SessionData) :
    SessionData :=
  as.foldl (fun d a => step questions a d) d

/-- A persisted result record (main.py lines 134-139): `name`, `score`,
`total` (the `finished_at` timestamp plays no role in the core and is
omitted). -/
structure RawRecord where
  name : String
  score : Nat
  total : Nat
deriving DecidableEq, Repr

/-- The record written on session completion (main.py lines 131-139). -/
def finishRecord (questions : List Question) (d : SessionData) : Option RawRecord :=
  (total_correct questions).map (fun t => { name := d.name, score := d.score, total := t })

/-- The results file, abstractly: the records previously written, and
whether the file currently reads back successfully (`readable = false`
covers a missing... no: a missing file is an empty readable store; an
unreadable or corrupt file is `readable = false`). -/
structure StoreFile where
  records : List RawRecord
  readable : Bool
deriving DecidableEq, Repr

/-- `safe_read_results` (main.py lines 70-77): any read failure is caught
and turned into the empty list. -/
def safe_read_results (s : StoreFile) : List RawRecord :=
  if s.readable then s.records else []

/-- `append_result` (main.py lines 79-83): read (swallowing failures),
append the record, rewrite the whole file.  The write is not guarded, so
a write failure propagates to the caller as an error; `writeOk` models
whether the write succeeds. -/
def append_result (s : StoreFile) (record : RawRecord) (writeOk : Bool) :
    Except String StoreFile :=
  let results := safe_read_results s
  if writeOk then .ok { records := results ++ [record], readable := true }
  else .error "StoreError"

/-- Python `str.lower()` on the characters of a string (the leaderboard
sort key `kv[0].lower()`, main.py line 98), modelled per character. -/
def lowerKey (s : String) : List Char := s.data.map Char.toLower

/-- Lexicographic comparison of character sequences by code point, the
order Python uses on strings. -/
def lexLe : List Char → List Char → Bool
  | [], _ => true
  | _ :: _, [] => false
  | a :: as, b :: bs =>
    if a.toNat < b.toNat then true
    else if b.toNat < a.toNat then false
    else lexLe as bs

/-- The sort key of `build_leaderboard_text` (main.py line 98):
`(-score, name.lower())` compared as a Python tuple, rendered as a
boolean "less or equal". -/
def lbKeyLE (a b : String × Nat × Nat) : Bool :=
  decide (b.2.1 < a.2.1) ||
  (a.2.1 == b.2.1 && lexLe (lowerKey a.1) (lowerKey b.1))

/-- One step of the best-score-per-name dict accumulation
(main.py lines 90-97): a new name is appended; an existing entry is
replaced, keeping its dict position, only when the incoming score is
strictly greater. -/
def bestStep (best : List (String × Nat × Nat)) (r : RawRecord) :
    List (String × Nat × Nat) :=
  match best.find? (fun p => p.1 == r.name) with
  | none => best ++ [(r.name, r.score, r.total)]
  | some p =>
    if p.2.1 < r.score then
      best.map (fun q => if q.1 == r.name then (r.name, r.score, r.total) else q)
    else best

/-- The `best` dict of `build_leaderboard_text` (main.py lines 90-97),
as an insertion-ordered association list. -/
def bestOf (results : List RawRecord) : List (String × Nat × Nat) :=
  results.foldl bestStep []

/-- Stable insertion of one element into a list sorted by `le`: the new
element goes after every existing element that compares `le` to it. -/
def insertSorted (le : α → α → Bool) (x : α) : List α → List α
  | [] => [x]
  | y :: ys => if le y x then y :: insertSorted le x ys else x :: y :: ys

/-- A stable sort (the semantics of Python `sorted` with a key):
insertion sort, processing elements left to right. -/
def stableSort (le : α → α → Bool) (l : List α) : List α :=
  l.foldl (fun acc x => insertSorted le x acc) []

/-- The rendered ranking lines (main.py lines 100-101):
`f"{i}. {name} — {score}/{total}"` with `i` counting from 1. -/
def renderLines (table : List (String × Nat × Nat)) : List String :=
  ((List.range table.length).zip table).map (fun p =>
    toString (p.1 + 1) ++ ". " ++ p.2.1 ++ " — " ++
      toString p.2.2.1 ++ "/" ++ toString p.2.2.2)

/-- Python `"\n".join(lines)`. -/
def joinLines : List String → String
  | [] => ""
  | [a] => a
  | a :: b :: rest => a ++ "\n" ++ joinLines (b :: rest)

/-- `build_leaderboard_text` (main.py lines 85-102) as a function of the
records read from the store: the "no results yet" marker for an empty
list, otherwise the best-per-name table, sorted by the key
`(-score, name.lower())`, truncated to `top_n`, rendered 1-indexed. -/
def build_leaderboard_text (results : List RawRecord) (top_n : Nat) : String :=
  if results.isEmpty then "Пока нет результатов."
  else
    let best := bestOf results
    let table := stableSort lbKeyLE best
    joinLines ("🏆 Текущий рейтинг:" :: "" :: renderLines (table.take top_n))

/-- The records of `results` carrying a given display name, in order. -/
def recsFor (results : List RawRecord) (name : String) : List RawRecord :=
  results.filter (fun r => r.name == name)

/-- The maximum score among a name's records (0 if there are none). -/
def maxScoreFor (results : List RawRecord) (name : String) : Nat :=
  (recsFor results name).foldl (fun m r => max m r.score) 0

/-- The record the leaderboard should keep for a name, per the spec: the
first record, in insertion order, attaining that name's maximum score. -/
def bestEntryFor (results : List RawRecord) (name : String) : Option RawRecord :=
  (recsFor results name).find? (fun r => r.score == maxScoreFor results name)

theorem dictGet_dictSet_self (m : List (Nat × List Nat)) (k : Nat) (v : List Nat) :
    dictGet (dictSet m k v) k = v := by
  induction m with
  | nil => simp [dictSet, dictGet]
  | cons p ps ih =>
    by_cases h : p.1 = k <;> simp [dictSet, dictGet, h, ih]

theorem dictGet_dictSet_ne (m : List (Nat × List Nat)) (k k2 : Nat) (v : List Nat)
    (h : k2 ≠ k) : dictGet (dictSet m k v) k2 = dictGet m k2 := by
  induction m with
  | nil => simp [dictSet, dictGet, Ne.symm h]
  | cons p ps ih =>
    by_cases hp : p.1 = k
    · simp [dictSet, dictGet, hp, Ne.symm h]
    · have hif : dictSet (p :: ps) k v = p :: dictSet ps k v := by simp [dictSet, hp]
      rw [hif]
      by_cases h2 : p.1 = k2 <;> simp [dictGet, h2, ih]

/-- C2: any action (single answer, multi toggle, multi clear, multi
submit) carrying a question index different from the session's current
question index is a no-op: the state — score, question index, pending
selections — is returned unchanged with the "already answered" outcome,
so a replayed action for an already-answered question never adds to the
score a second time. -/
theorem C2_stale_actions_are_noops (questions : List Question) (qi oi : Nat)
    (d : SessionData) (h : qi ≠ d.q_index) :
    handle_single questions qi oi d = (d, .staleAnswer) ∧
    handle_multi_toggle questions qi oi d = (d, .staleAnswer) ∧
    handle_multi_clear questions qi d = (d, .staleAnswer) ∧
    handle_multi_submit questions qi d = (d, .staleAnswer) := by
  refine ⟨?_, ?_, ?_, ?_⟩ <;>
    simp [handle_single, handle_multi_toggle, handle_multi_clear,
      handle_multi_submit, h]

/-- Witness for C2: a concrete stale single-answer callback is ignored. -/
theorem C2_stale_actions_are_noops_witness :
    handle_single [] 1 0 (initialData "u") = (initialData "u", .staleAnswer) :=
  (C2_stale_actions_are_noops [] 1 0 (initialData "u") (by decide)).1

/-- C4: answering a SINGLE question awards exactly 1 point when the
chosen option index equals the stored correct index and 0 otherwise, and
the question index advances by one. -/
theorem C4_single_scoring (questions : List Question) (qi oi : Nat)
    (d : SessionData) (q : Question) (a : Nat) (hidx : qi = d.q_index)
    (hq : questions[d.q_index]? = some q) (_htype : q.qtype = "single")
    (ha : q.answer_index = .int a) :
    (handle_single questions qi oi d).1.score =
      d.score + (if oi = a then 1 else 0) ∧
    (handle_single questions qi oi d).1.q_index = d.q_index + 1 ∧
    (handle_single questions qi oi d).2 = .answered (oi == a) := by
  subst hidx
  by_cases h : oi = a <;> simp [handle_single, hq, ha, h]

/-- Witness for C4: the correct choice on a concrete single question
scores 1; question 0 advances to 1. -/
theorem C4_single_scoring_witness :
    (handle_single [⟨"s", ["a", "b"], "single", .int 1⟩] 0 1
      (initialData "u")).1.score = 0 + (if 1 = 1 then 1 else 0) :=
  (C4_single_scoring [⟨"s", ["a", "b"], "single", .int 1⟩] 0 1
    (initialData "u") _ 1 rfl rfl rfl rfl).1

/-- C1: submitting a MULTI question awards a delta equal to the size of
the intersection of the pending selection set with the question's set of
correct indices; the delta is at most the size of the correct set, and
adding extra incorrect options to the selection never changes (in
particular never reduces) the delta. -/
theorem C1_multi_submit_scoring (questions : List Question) (qi : Nat)
    (d : SessionData) (q : Question) (l : List Nat) (hidx : qi = d.q_index)
    (hq : questions[d.q_index]? = some q) (_htype : q.qtype = "multi")
    (ha : q.answer_index = .list l) :
    (handle_multi_submit questions qi d).1.score =
      d.score + scoreMultiGained l.toFinset (dictGet d.multi_selected qi).toFinset ∧
    scoreMultiGained l.toFinset (dictGet d.multi_selected qi).toFinset =
      (l.toFinset ∩ (dictGet d.multi_selected qi).toFinset).card ∧
    scoreMultiGained l.toFinset (dictGet d.multi_selected qi).toFinset ≤
      l.toFinset.card ∧
    (handle_multi_submit questions qi d).1.q_index = d.q_index + 1 ∧
    (∀ extra : Finset Nat, extra ∩ l.toFinset = ∅ →
      scoreMultiGained l.toFinset ((dictGet d.multi_selected qi).toFinset ∪ extra) =
        scoreMultiGained l.toFinset (dictGet d.multi_selected qi).toFinset) := by
  subst hidx
  refine ⟨?_, rfl, Finset.card_le_card Finset.inter_subset_left, ?_, ?_⟩
  · simp [handle_multi_submit, hq, ha]
  · simp [handle_multi_submit, hq, ha]
  · intro extra hextra
    have h2 : l.toFinset ∩ extra = ∅ := by
      rwa [Finset.inter_comm] at hextra
    simp [scoreMultiGained, Finset.inter_union_distrib_left, h2]

/-- Witness for C1: submitting selection {0,1} against correct set {0,2}
gains exactly 1 point. -/
theorem C1_multi_submit_scoring_witness :
    (handle_multi_submit [⟨"m", ["a", "b", "c"], "multi", .list [0, 2]⟩] 0
      { name := "u", score := 0, q_index := 0,
        multi_selected := [(0, [0, 1])] }).1.score =
      0 + scoreMultiGained ([0, 2] : List Nat).toFinset
        (dictGet [(0, [0, 1])] 0).toFinset :=
  (C1_multi_submit_scoring [⟨"m", ["a", "b", "c"], "multi", .list [0, 2]⟩] 0
    { name := "u", score := 0, q_index := 0, multi_selected := [(0, [0, 1])] }
    _ [0, 2] rfl rfl rfl rfl).1

/-- A concrete valid SINGLE question (also the single question of the
spec's end-to-end example, correct index 1). -/
def exampleQ1 : Question :=
  { question := "s", options := ["a", "b"], qtype := "single", answer_index := .int 1 }

/-- A concrete valid MULTI question (the spec's end-to-end example,
correct set {0,2} out of 3 options). -/
def exampleQ2 : Question :=
  { question := "m", options := ["a", "b", "c"], qtype := "multi",
    answer_index := .list [0, 2] }

/-- Counterexample to C3 as stated: with a SINGLE-type current question,
a multi-clear for the current index is not rejected — it reports the
success outcome `cleared` and mutates the session state (the
`multi_selected` map gains an entry for the current index). -/
theorem C3_counterexample :
    (handle_multi_clear [exampleQ1] 0 (initialData "u")).1 ≠ initialData "u" ∧
    (handle_multi_clear [exampleQ1] 0 (initialData "u")).2 = .cleared := by
  decide

/-- C3 (amended): a multi-toggle against a non-MULTI current question is
rejected as a type-mismatch no-op with no state change; single-answering
a MULTI current question and multi-submitting a SINGLE current question
fail with a `TypeError` before any state update, leaving the state
unchanged; a multi-clear is not type-checked — for any current question
it leaves score and question index unchanged and sets the stored pending
selection for the current index to the empty list. -/
theorem C3_type_mismatch_behavior (questions : List Question) (qi oi : Nat)
    (d : SessionData) (q : Question) (hidx : qi = d.q_index)
    (hq : questions[d.q_index]? = some q) :
    (q.qtype ≠ "multi" → handle_multi_toggle questions qi oi d = (d, .typeMismatch)) ∧
    (∀ l, q.answer_index = .list l → handle_single questions qi oi d = (d, .typeError)) ∧
    (∀ a, q.answer_index = .int a → handle_multi_submit questions qi d = (d, .typeError)) ∧
    ((handle_multi_clear questions qi d).1 =
        { d with multi_selected := dictSet d.multi_selected qi [] } ∧
      (handle_multi_clear questions qi d).1.score = d.score ∧
      (handle_multi_clear questions qi d).1.q_index = d.q_index ∧
      dictGet (handle_multi_clear questions qi d).1.multi_selected qi = []) := by
  subst hidx
  refine ⟨?_, ?_, ?_, ?_, ?_, ?_, ?_⟩
  · intro ht; simp [handle_multi_toggle, hq, ht]
  · intro l hl; simp [handle_single, hq, hl]
  · intro a ha; simp [handle_multi_submit, hq, ha]
  · simp [handle_multi_clear]
  · simp [handle_multi_clear]
  · simp [handle_multi_clear]
  · simp [handle_multi_clear, dictGet_dictSet_self]

/-- Witness for C3 (amended): a concrete toggle against a SINGLE current
question is rejected with no state change. -/
theorem C3_type_mismatch_behavior_witness :
    handle_multi_toggle [exampleQ1] 0 0 (initialData "u") =
      (initialData "u", .typeMismatch) :=
  (C3_type_mismatch_behavior [exampleQ1] 0 0 (initialData "u") exampleQ1
    rfl rfl).1 (by decide)

/-- A record that will be lost when the store is unreadable. -/
def lostRecord : RawRecord := { name := "A", score := 5, total := 10 }

/-- A record appended over an unreadable store. -/
def newRecord : RawRecord := { name := "B", score := 7, total := 10 }

/-- Counterexample to C8 as stated: appending to an unreadable/corrupt
store does not surface an error — the read failure is swallowed by
`safe_read_results`, the append reports success, and the store is
rewritten to contain only the new record, losing the previously stored
one. -/
theorem C8_counterexample :
    append_result { records := [lostRecord], readable := false } newRecord true =
      .ok { records := [newRecord], readable := true } ∧
    lostRecord ∉ [newRecord] := by
  constructor
  · rfl
  · decide

/-- C8 (amended): a failing write during `append_result` is surfaced to
the caller as an error; but a read failure is not — `safe_read_results`
silently maps an unreadable or corrupt store to the empty record list,
so a subsequent successful append rewrites the store with only the new
record, discarding whatever was stored before. -/
theorem C8_store_error_behavior (s : StoreFile) (record : RawRecord)
    (writeOk : Bool) :
    (writeOk = false → append_result s record writeOk = .error "StoreError") ∧
    (writeOk = true → append_result s record writeOk =
      .ok { records := safe_read_results s ++ [record], readable := true }) ∧
    (s.readable = false → safe_read_results s = []) ∧
    (s.readable = true → safe_read_results s = s.records) := by
  refine ⟨?_, ?_, ?_, ?_⟩
  · intro h; simp [append_result, h]
  · intro h; simp [append_result, h]
  · intro h; simp [safe_read_results, h]
  · intro h; simp [safe_read_results, h]

/-- Witness for C8 (amended): a concrete failing write is reported as an
error. -/
theorem C8_store_error_behavior_witness :
    append_result { records := [], readable := true } newRecord false =
      .error "StoreError" :=
  (C8_store_error_behavior { records := [], readable := true } newRecord false).1 rfl

/-- A MULTI question whose `answer_index` list contains a duplicate. -/
def dupMultiQ : Question :=
  { question := "dup", options := ["a", "b", "c"], qtype := "multi",
    answer_index := .list [0, 0, 1] }

/-- C9: a MULTI question whose `answer_index` list holds duplicates
passes validation; its contribution to the completion total is the list
length (3, duplicates counted), while the score delta of any selection
is at most the number of distinct correct indices (2, attained by
selecting every option) — so the recorded total strictly exceeds every
achievable score. -/
theorem C9_duplicate_answer_indices :
    validateQuestion dupMultiQ = true ∧
    load_questions [dupMultiQ] = .ok [dupMultiQ] ∧
    total_correct [dupMultiQ] = some 3 ∧
    (∀ sel : Finset Nat, scoreMultiGained ([0, 0, 1] : List Nat).toFinset sel ≤ 2) ∧
    scoreMultiGained ([0, 0, 1] : List Nat).toFinset ({0, 1, 2} : Finset Nat) = 2 ∧
    (handle_multi_submit [dupMultiQ] 0
      { name := "u", score := 0, q_index := 0,
        multi_selected := [(0, [0, 1, 2])] }).1.score = 2 := by
  refine ⟨by decide, by rfl, by rfl, ?_, by decide, by decide⟩
  intro sel
  have h1 : ([0, 0, 1] : List Nat).toFinset.card = 2 := by decide
  calc scoreMultiGained ([0, 0, 1] : List Nat).toFinset sel
      ≤ ([0, 0, 1] : List Nat).toFinset.card :=
        Finset.card_le_card Finset.inter_subset_left
    _ = 2 := h1

/-- Witness for C9: the bound instantiated at the full selection. -/
theorem C9_duplicate_answer_indices_witness :
    scoreMultiGained ([0, 0, 1] : List Nat).toFinset ({0, 1, 2} : Finset Nat) ≤ 2 :=
  C9_duplicate_answer_indices.2.2.2.1 {0, 1, 2}

/-- Auxiliary unfolding of `total_correct` on a cons cell. -/
theorem total_correct_cons (q : Question) (rest : List Question) :
    total_correct (q :: rest) =
      match questionPoints q, total_correct rest with
      | some p, some s => some (p + s)
      | _, _ => none := rfl

/-- C5: for a bank that passes validation and whose multi `answer_index`
lists are duplicate-free (the spec's data model stores a set of correct
indices), the completion total computed on session completion equals the
spec formula: one point per SINGLE question plus the cardinality of the
correct set per MULTI question — and that is exactly the total written
into the finish record. -/
theorem C5_total_possible (qs : List Question)
    (hvalid : ∀ q ∈ qs, validateQuestion q = true)
    (hsets : ∀ q ∈ qs, ∀ l, q.answer_index = .list l → l.Nodup) :
    total_correct qs = some (totalPossibleSpec qs) ∧
    ∀ d : SessionData, finishRecord qs d =
      some { name := d.name, score := d.score, total := totalPossibleSpec qs } := by
  have main : total_correct qs = some (totalPossibleSpec qs) := by
    induction qs with
    | nil => rfl
    | cons q rest ih =>
      have hq := hvalid q (by simp)
      have hrest : total_correct rest = some (totalPossibleSpec rest) :=
        ih (fun r hr => hvalid r (by simp [hr])) (fun r hr => hsets r (by simp [hr]))
      have hors : q.qtype = "single" ∨ q.qtype = "multi" := by
        have h2 := hq
        simp only [validateQuestion, Bool.and_eq_true, Bool.or_eq_true,
          beq_iff_eq] at h2
        exact h2.1.1
      rcases hors with hs | hm
      · have hsingle : (q.qtype == "single") = true := by simp [hs]
        have hmulti : (q.qtype == "multi") = false := by rw [hs]; rfl
        have hone : questionPoints q = some 1 := by simp [questionPoints, hmulti]
        have hts : totalPossibleSpec (q :: rest) = 1 + totalPossibleSpec rest := by
          simp only [totalPossibleSpec, List.filter_cons, hsingle, hmulti,
            if_true, if_false]
          simp
          omega
        rw [total_correct_cons, hone, hrest, hts]
      · have hsingle : (q.qtype == "single") = false := by rw [hm]; rfl
        have hmulti : (q.qtype == "multi") = true := by simp [hm]
        rcases hl : q.answer_index with a | l
        · exfalso
          simp [validateQuestion, hsingle, hl] at hq
        · have hpoints : questionPoints q = some l.length := by
            simp [questionPoints, hmulti, hl]
          have hnodup : l.Nodup := hsets q (by simp) l hl
          have hcard : l.toFinset.card = l.length :=
            List.toFinset_card_of_nodup hnodup
          have hts : totalPossibleSpec (q :: rest) =
              l.length + totalPossibleSpec rest := by
            simp only [totalPossibleSpec, List.filter_cons, hsingle, hmulti,
              if_true, if_false]
            simp [hl, hcard]
            omega
          rw [total_correct_cons, hpoints, hrest, hts]
  refine ⟨main, fun d => ?_⟩
  simp [finishRecord, main]

/-- Witness for C5 at the spec's example bank (one single question, one
multi question with two correct options): total 3. -/
theorem C5_total_possible_witness :
    total_correct [exampleQ1, exampleQ2] = some (totalPossibleSpec [exampleQ1, exampleQ2]) ∧
    totalPossibleSpec [exampleQ1, exampleQ2] = 3 := by
  constructor
  · exact (C5_total_possible [exampleQ1, exampleQ2] (by decide)
      (by
        intro q hq l hl
        simp [exampleQ1, exampleQ2] at hq
        rcases hq with h | h <;> subst h <;>
          simp [exampleQ1, exampleQ2] at hl
        subst hl
        decide)).1
  · decide

/-- Case analysis on one step: either the state is unchanged, or only the
pending selection of the current question is rewritten, or the score is
updated and the question index advances by exactly one. -/
theorem step_cases (questions : List Question) (a : QuizAction) (d : SessionData) :
    step questions a d = d ∨
    (∃ sel, step questions a d =
        { d with multi_selected := dictSet d.multi_selected d.q_index sel }) ∨
    (∃ s2, step questions a d =
        { d with score := s2, q_index := d.q_index + 1 }) := by
  cases a with
  | single qi oi =>
    simp only [step, handle_single]
    split
    · exact Or.inl rfl
    split
    · exact Or.inl rfl
    split
    · exact Or.inl rfl
    · exact Or.inr (Or.inr ⟨_, rfl⟩)
  | toggle qi oi =>
    simp only [step, handle_multi_toggle]
    split
    · exact Or.inl rfl
    next hne =>
      rw [not_ne_iff] at hne
      subst hne
      split
      · exact Or.inl rfl
      split
      · exact Or.inl rfl
      · exact Or.inr (Or.inl ⟨_, rfl⟩)
  | clear qi =>
    simp only [step, handle_multi_clear]
    split
    · exact Or.inl rfl
    next hne =>
      rw [not_ne_iff] at hne
      subst hne
      exact Or.inr (Or.inl ⟨[], rfl⟩)
  | submit qi =>
    simp only [step, handle_multi_submit]
    split
    · exact Or.inl rfl
    split
    · exact Or.inl rfl
    split
    · exact Or.inl rfl
    · exact Or.inr (Or.inr ⟨_, rfl⟩)

/-- Every handler either leaves the question index unchanged or advances
it by exactly one. -/
theorem step_q_index_mono (questions : List Question) (a : QuizAction)
    (d : SessionData) :
    (step questions a d).q_index = d.q_index ∨
      (step questions a d).q_index = d.q_index + 1 := by
  rcases step_cases questions a d with he | ⟨sel, he⟩ | ⟨s2, he⟩ <;> rw [he]
  · exact Or.inl rfl
  · exact Or.inl rfl
  · exact Or.inr rfl

/-- Invariant: every stored pending selection at an index strictly beyond
the current question is empty. -/
def SelInvariant (d : SessionData) : Prop :=
  ∀ k, d.q_index < k → dictGet d.multi_selected k = []

theorem selInvariant_initial (name : String) : SelInvariant (initialData name) :=
  fun _ _ => rfl

theorem selInvariant_step (questions : List Question) (a : QuizAction)
    (d : SessionData) (h : SelInvariant d) : SelInvariant (step questions a d) := by
  rcases step_cases questions a d with he | ⟨sel, he⟩ | ⟨s2, he⟩ <;> rw [he]
  · exact h
  · intro k hk
    have hk2 : d.q_index < k := hk
    show dictGet (dictSet d.multi_selected d.q_index sel) k = []
    rw [dictGet_dictSet_ne _ _ _ _ (by omega)]
    exact h k hk2
  · intro k hk
    have hk2 : d.q_index + 1 < k := hk
    show dictGet d.multi_selected k = []
    exact h k (by omega)

theorem selInvariant_run (questions : List Question) (as : List QuizAction)
    (name : String) : SelInvariant (runActions questions as (initialData name)) := by
  suffices hgen : ∀ d, SelInvariant d →
      SelInvariant (runActions questions as d) from
    hgen _ (selInvariant_initial name)
  induction as with
  | nil => exact fun d hd => hd
  | cons a rest ih =>
    intro d hd
    exact ih _ (selInvariant_step questions a d hd)

/-- If a step advances the question index, the stored pending selection
at the new current index is empty. -/
theorem step_advance_fresh (questions : List Question) (a : QuizAction)
    (d : SessionData) (h : SelInvariant d)
    (hadv : (step questions a d).q_index = d.q_index + 1) :
    dictGet (step questions a d).multi_selected ((step questions a d).q_index) = [] := by
  rcases step_cases questions a d with he | ⟨sel, he⟩ | ⟨s2, he⟩ <;> rw [he] at hadv ⊢
  · exact absurd hadv (by omega)
  · have h2 : d.q_index = d.q_index + 1 := hadv
    exact absurd h2 (by omega)
  · exact h (d.q_index + 1) (Nat.lt_succ_self _)

/-- C7: across any sequence of actions after name entry, each further
action leaves the current question index unchanged or advances it by
exactly one (it never decreases), and whenever it advances, the pending
selection stored for the new current question is empty. -/
theorem C7_monotone_index_and_fresh_selection (questions : List Question)
    (name : String) (as : List QuizAction) (a : QuizAction) :
    ((step questions a (runActions questions as (initialData name))).q_index =
        (runActions questions as (initialData name)).q_index ∨
      (step questions a (runActions questions as (initialData name))).q_index =
        (runActions questions as (initialData name)).q_index + 1) ∧
    ((step questions a (runActions questions as (initialData name))).q_index =
        (runActions questions as (initialData name)).q_index + 1 →
      dictGet
        (step questions a (runActions questions as (initialData name))).multi_selected
        ((step questions a (runActions questions as (initialData name))).q_index) =
        []) :=
  ⟨step_q_index_mono questions a _,
   fun hadv => step_advance_fresh questions a _ (selInvariant_run questions as name) hadv⟩

/-- Witness for C7: a concrete correct single answer advances the index
from 0 to 1 and the new question's stored selection is empty. -/
theorem C7_monotone_index_and_fresh_selection_witness :
    (step [exampleQ1] (.single 0 1) (runActions [exampleQ1] [] (initialData "u"))).q_index =
        (runActions [exampleQ1] [] (initialData "u")).q_index ∨
      (step [exampleQ1] (.single 0 1) (runActions [exampleQ1] [] (initialData "u"))).q_index =
        (runActions [exampleQ1] [] (initialData "u")).q_index + 1 :=
  (C7_monotone_index_and_fresh_selection [exampleQ1] "u" [] (.single 0 1)).1

theorem foldl_max_init_le (recs : List RawRecord) (a : Nat) :
    a ≤ recs.foldl (fun m x => max m x.score) a := by
  induction recs generalizing a with
  | nil => exact le_refl a
  | cons x xs ih => exact le_trans (le_max_left a x.score) (ih (max a x.score))

theorem foldl_max_score_le (recs : List RawRecord) (a : Nat) (r : RawRecord)
    (h : r ∈ recs) : r.score ≤ recs.foldl (fun m x => max m x.score) a := by
  induction recs generalizing a with
  | nil => cases h
  | cons x xs ih =>
    rcases List.mem_cons.mp h with h1 | h1
    · subst h1
      exact le_trans (le_max_right a r.score) (foldl_max_init_le xs (max a r.score))
    · exact ih (max a x.score) h1

theorem foldl_max_score_choice (recs : List RawRecord) (a : Nat) :
    recs.foldl (fun m x => max m x.score) a = a ∨
      ∃ r ∈ recs, recs.foldl (fun m x => max m x.score) a = r.score := by
  induction recs generalizing a with
  | nil => exact Or.inl rfl
  | cons x xs ih =>
    rcases ih (max a x.score) with h | ⟨r, hr, he⟩
    · rcases max_choice a x.score with hm | hm
      · exact Or.inl (by rw [List.foldl_cons, h, hm])
      · exact Or.inr ⟨x, by simp, by rw [List.foldl_cons, h, hm]⟩
    · exact Or.inr ⟨r, by simp [hr], he⟩

theorem foldl_max_score_attained (recs : List RawRecord) (h : recs ≠ []) :
    ∃ r ∈ recs, r.score = recs.foldl (fun m x => max m x.score) 0 := by
  rcases foldl_max_score_choice recs 0 with h0 | ⟨r, hr, he⟩
  · match recs, h with
    | x :: xs, _ =>
      refine ⟨x, by simp, ?_⟩
      have hle := foldl_max_score_le (x :: xs) 0 x (by simp)
      omega
  · exact ⟨r, hr, he.symm⟩

theorem maxScoreFor_le (results : List RawRecord) (name : String)
    (r : RawRecord) (h : r ∈ recsFor results name) :
    r.score ≤ maxScoreFor results name :=
  foldl_max_score_le _ 0 r h

theorem bestEntryFor_spec (results : List RawRecord) (name : String)
    (r0 : RawRecord) (h : bestEntryFor results name = some r0) :
    r0 ∈ recsFor results name ∧ r0.score = maxScoreFor results name := by
  have h2 : (recsFor results name).find?
      (fun r2 => r2.score == maxScoreFor results name) = some r0 := h
  have h3 := List.find?_some h2
  exact ⟨List.mem_of_find?_eq_some h2, by simpa using h3⟩

theorem bestEntryFor_of_nonempty (results : List RawRecord) (name : String)
    (h : recsFor results name ≠ []) :
    ∃ r0, bestEntryFor results name = some r0 := by
  obtain ⟨r, hr, hs⟩ := foldl_max_score_attained _ h
  have hsome : (bestEntryFor results name).isSome :=
    List.find?_isSome.mpr ⟨r, hr, by simp [maxScoreFor, hs.symm]⟩
  exact Option.isSome_iff_exists.mp hsome

theorem bestOf_append_singleton (l : List RawRecord) (r : RawRecord) :
    bestOf (l ++ [r]) = bestStep (bestOf l) r := by
  simp [bestOf, List.foldl_append]

theorem recsFor_append_singleton (l : List RawRecord) (r : RawRecord)
    (name : String) :
    recsFor (l ++ [r]) name =
      recsFor l name ++ (if r.name == name then [r] else []) := by
  simp only [recsFor, List.filter_append]
  congr 1
  by_cases h : (r.name == name) <;> simp [List.filter, h]

theorem maxScoreFor_append_self (l : List RawRecord) (r : RawRecord) :
    maxScoreFor (l ++ [r]) r.name = max (maxScoreFor l r.name) r.score := by
  simp [maxScoreFor, recsFor_append_singleton, List.foldl_append]

theorem maxScoreFor_append_other (l : List RawRecord) (r : RawRecord)
    (name : String) (h : ¬ r.name = name) :
    maxScoreFor (l ++ [r]) name = maxScoreFor l name := by
  simp [maxScoreFor, recsFor_append_singleton, h]

theorem recsFor_append_other (l : List RawRecord) (r : RawRecord)
    (name : String) (h : ¬ r.name = name) :
    recsFor (l ++ [r]) name = recsFor l name := by
  simp [recsFor_append_singleton, h]

/-- The best-per-name dict, characterised per name: looking a name up in
the accumulated dict yields exactly the first record (in insertion
order) attaining that name's maximum score. -/
theorem bestOf_find? (results : List RawRecord) (name : String) :
    (bestOf results).find? (fun p => p.1 == name) =
      (bestEntryFor results name).map (fun r => (name, r.score, r.total)) := by
  induction results using List.reverseRecOn with
  | nil => rfl
  | append_singleton l r ih =>
    rw [bestOf_append_singleton]
    by_cases hn : r.name = name
    · subst hn
      rcases hb : bestEntryFor l r.name with _ | r0
      · have hfind : (bestOf l).find? (fun p => p.1 == r.name) = none := by
          rw [ih, hb]; rfl
        have hrecs : recsFor l r.name = [] := by
          by_contra hne
          obtain ⟨r0, h0⟩ := bestEntryFor_of_nonempty l r.name hne
          rw [hb] at h0
          cases h0
        have hms : maxScoreFor (l ++ [r]) r.name = r.score := by
          rw [maxScoreFor_append_self]
          simp [maxScoreFor, hrecs]
        have hrecs2 : recsFor (l ++ [r]) r.name = [r] := by
          rw [recsFor_append_singleton, hrecs]
          simp
        simp only [bestStep, hfind]
        rw [List.find?_append, hfind]
        simp [bestEntryFor, hrecs2, hms, List.find?_cons]
      · obtain ⟨hr0mem, hr0score⟩ := bestEntryFor_spec l r.name r0 hb
        have hfind : (bestOf l).find? (fun p => p.1 == r.name) =
            some (r.name, r0.score, r0.total) := by
          rw [ih, hb]; rfl
        have hrecs2 : recsFor (l ++ [r]) r.name = recsFor l r.name ++ [r] := by
          rw [recsFor_append_singleton]
          simp
        by_cases hlt : r0.score < r.score
        · have hms : maxScoreFor (l ++ [r]) r.name = r.score := by
            rw [maxScoreFor_append_self, ← hr0score]
            exact max_eq_right (le_of_lt hlt)
          have hnone : (recsFor l r.name).find? (fun x => x.score == r.score) = none := by
            rw [List.find?_eq_none]
            intro x hx
            have hxle := maxScoreFor_le l r.name x hx
            simp only [beq_iff_eq]
            omega
          simp only [bestStep, hfind]
          rw [if_pos hlt, List.find?_map]
          have hcomp : ((fun p : String × Nat × Nat => p.1 == r.name) ∘
              (fun q => if q.1 == r.name then (r.name, r.score, r.total) else q)) =
              (fun q : String × Nat × Nat => q.1 == r.name) := by
            funext q
            by_cases hq : (q.1 == r.name) = true <;> simp [Function.comp, hq]
          rw [hcomp, hfind]
          simp [bestEntryFor, hrecs2, hms, List.find?_append, hnone, List.find?_cons]
        · have hms : maxScoreFor (l ++ [r]) r.name = maxScoreFor l r.name := by
            rw [maxScoreFor_append_self, ← hr0score]
            exact max_eq_left (Nat.le_of_not_lt hlt)
          have hsome : (recsFor l r.name).find?
              (fun x => x.score == maxScoreFor l r.name) = some r0 := hb
          have hbe : bestEntryFor (l ++ [r]) r.name = bestEntryFor l r.name := by
            simp only [bestEntryFor, hrecs2, hms]
            rw [List.find?_append, hsome]
            simp
          simp only [bestStep, hfind]
          rw [if_neg hlt, hbe]
          exact ih
    · have hnb : (r.name == name) = false := by simp [hn]
      have hbe : bestEntryFor (l ++ [r]) name = bestEntryFor l name := by
        simp only [bestEntryFor, recsFor_append_other l r name hn,
          maxScoreFor_append_other l r name hn]
      rw [hbe, ← ih]
      rcases hf : (bestOf l).find? (fun p => p.1 == r.name) with _ | p
      · simp only [bestStep, hf]
        rw [List.find?_append]
        simp [hnb, List.find?_cons]
      · simp only [bestStep, hf]
        by_cases hlt : p.2.1 < r.score
        · rw [if_pos hlt, List.find?_map]
          have hcomp : ((fun p2 : String × Nat × Nat => p2.1 == name) ∘
              (fun q => if q.1 == r.name then (r.name, r.score, r.total) else q)) =
              (fun q : String × Nat × Nat => q.1 == name) := by
            funext q
            by_cases hq : (q.1 == r.name) = true
            · have hq2 : q.1 = r.name := eq_of_beq hq
              simp [Function.comp, hq, hq2, hnb]
            · simp [Function.comp, hq]
          rw [hcomp]
          rcases hg : (bestOf l).find? (fun q => q.1 == name) with _ | q
          · rw [hg]
            rfl
          · have hqp : (q.1 == name) = true := by
              have := List.find?_some hg
              simpa using this
            have hq1 : q.1 = name := eq_of_beq hqp
            rw [hg]
            simp [hq1, Ne.symm hn]
        · rw [if_neg hlt]

theorem find?_some_split {α : Type} (p : α → Bool) (l : List α) (a : α)
    (h : l.find? p = some a) :
    ∃ l1 l2, l = l1 ++ a :: l2 ∧ ∀ x ∈ l1, p x = false := by
  induction l with
  | nil => cases h
  | cons x xs ih =>
    by_cases hx : p x = true
    · rw [List.find?_cons, hx] at h
      injection h with h
      exact ⟨[], xs, by rw [h]; rfl, by simp⟩
    · have hxf : p x = false := by simpa using hx
      rw [List.find?_cons, hxf] at h
      obtain ⟨l1, l2, he, hall⟩ := ih h
      refine ⟨x :: l1, l2, by rw [he]; rfl, ?_⟩
      intro z hz
      rcases List.mem_cons.mp hz with h1 | h1
      · subst h1
        exact hxf
      · exact hall z h1

/-- C10: when records for one display name tie at the name's maximum
score, the leaderboard keeps the first such record in insertion order —
its `total` included — because a later record replaces the kept entry
only when its score is strictly greater: the entry stored for a name is
exactly `(name, r0.score, r0.total)` where `r0` is the first record of
that name attaining the maximum score, every earlier record of that name
scoring strictly less. -/
theorem C10_first_max_total (results : List RawRecord) (name : String)
    (h : recsFor results name ≠ []) :
    ∃ r0 l1 l2,
      bestEntryFor results name = some r0 ∧
      (bestOf results).find? (fun p => p.1 == name) =
        some (name, r0.score, r0.total) ∧
      r0.score = maxScoreFor results name ∧
      recsFor results name = l1 ++ r0 :: l2 ∧
      (∀ r2 ∈ l1, r2.score < maxScoreFor results name) := by
  obtain ⟨r0, hbe⟩ := bestEntryFor_of_nonempty results name h
  have hbe2 : (recsFor results name).find?
      (fun r2 => r2.score == maxScoreFor results name) = some r0 := hbe
  obtain ⟨l1, l2, hsplit, hall⟩ := find?_some_split _ _ _ hbe2
  refine ⟨r0, l1, l2, hbe, ?_, (bestEntryFor_spec results name r0 hbe).2, hsplit, ?_⟩
  · rw [bestOf_find?, hbe]
    rfl
  · intro r2 hr2
    have hmem : r2 ∈ recsFor results name := by
      rw [hsplit]
      exact List.mem_append.mpr (Or.inl hr2)
    have hle := maxScoreFor_le results name r2 hmem
    have hne2 : r2.score ≠ maxScoreFor results name := by
      have := hall r2 hr2
      simpa using this
    omega

/-- Witness for C10 at two tying records with different totals: the kept
entry is the first one. -/
theorem C10_first_max_total_witness :
    (bestOf [RawRecord.mk "A" 5 10, RawRecord.mk "A" 5 99]).find?
      (fun p => p.1 == "A") = some ("A", 5, 10) := by
  obtain ⟨r0, l1, l2, h1, h2, h3, h4, h5⟩ :=
    C10_first_max_total [RawRecord.mk "A" 5 10, RawRecord.mk "A" 5 99] "A" (by decide)
  have hbe : bestEntryFor [RawRecord.mk "A" 5 10, RawRecord.mk "A" 5 99] "A" =
      some (RawRecord.mk "A" 5 10) := by decide
  rw [hbe] at h1
  injection h1 with h1
  rw [← h1] at h2
  exact h2

/-- The spec's leaderboard example: records (A,5,10), (B,7,10), (A,3,10)
reduce to best-per-name {A:5, B:7} and render B first. -/
theorem build_leaderboard_example :
    build_leaderboard_text
      [RawRecord.mk "A" 5 10, RawRecord.mk "B" 7 10, RawRecord.mk "A" 3 10] 10 =
      "🏆 Текущий рейтинг:\n\n1. B — 7/10\n2. A — 5/10" := by
  decide
